import Mathlib

/-!
Shallow embedding of the chunked Q&A generation pipeline of
`src/rag_core.py` (class `SimpleRAG`) together with the constants of
`src/config.py`, and proofs of the behavioural properties claimed for it.

Modelling conventions:
* document text and all other strings are `List Char`;
* Python `str.strip()` is `trim` (leading and trailing whitespace removed);
* the external LLM collaborator (`self.client.messages.create`) is an
  oracle parameter `Nat → List Char → Except (List Char) (List Char)`
  mapping (API call index, document text capped to its 8000-char prefix)
  to either the raw response text or an error message; the call index is
  threaded through the run so that one oracle can describe a whole
  multi-chunk run with failures and retries;
* `time.sleep` is modelled by recording the slept durations in a trace
  (`sleeps`); the backoff waits are the integers `min(2**retry_count,
  MAX_RETRY_WAIT)` of the source.  The float throttle delay
  (`DEFAULT_API_CALL_DELAY = 0.5`) is not part of any claim and is not
  recorded;
* a raised exception that escapes a function is an `Except.error`;
  the formatted per-chunk error strings are modelled as a structure
  `LedgerEntry` carrying the fields interpolated into the source's
  f-string (chunk number, attempt count, attempt budget, message).
-/

namespace RagQA

/-- Document text, chunk text, raw LLM responses: Python strings as char lists. -/
abbrev Doc := List Char

/-- `src/config.py`: `MAX_RETRY_WAIT = 10`. -/
def MAX_RETRY_WAIT : Nat := 10

/-- `src/config.py`: `DEFAULT_CHUNK_RETRIES = 2`. -/
def DEFAULT_CHUNK_RETRIES : Nat := 2

/-- `src/config.py`: `DEFAULT_MAX_CHUNKS = 100`. -/
def DEFAULT_MAX_CHUNKS : Nat := 100

/-- The fixed prompt cap: `self.document_text[:8000]` in `generate_qa_pairs`. -/
def PROMPT_DOC_CAP : Nat := 8000

/-- Python `str.strip()` with no argument: remove leading and trailing
whitespace.  (`Char.isWhitespace` covers space, tab, CR, LF — the
whitespace that occurs in this development's texts.) -/
def trim (l : Doc) : Doc :=
  ((l.dropWhile Char.isWhitespace).reverse.dropWhile Char.isWhitespace).reverse

/-- Python slicing `t[s:e]` for `0 ≤ s ≤ e` (clamped to the text length). -/
def slice (t : Doc) (s e : Nat) : Doc := (t.take e).drop s

/-! ### Text Chunker (`SimpleRAG.chunk_text`, src/rag_core.py lines 144-185) -/

/-- Python `text.rfind(".", start, end)` restricted to the found case:
the largest index `p` with `start ≤ p < end` and `text[p] = '.'`,
or `none` when there is no period in the window (Python returns `-1`). -/
def rfindPeriod (t : Doc) (s e : Nat) : Option Nat :=
  (((List.range' s (e - s)).filter (fun p => t.getD p ' ' == '.'))).getLast?

/-- The snapped end of one chunk window:
`end = min(start + max_chars, len(text))`, then, when strictly inside the
text, `last_period = text.rfind(".", start, end)` and
`if last_period > start: end = last_period + 1`. -/
def chunkEndAt (t : Doc) (mc s : Nat) : Nat :=
  if min (s + mc) t.length < t.length then
    match rfindPeriod t s (min (s + mc) t.length) with
    | some p => if s < p then p + 1 else min (s + mc) t.length
    | none => min (s + mc) t.length
  else min (s + mc) t.length

/-- Result of the chunking loop: the `[start, end)` windows the loop cut
(the chunk list is their trimmed, nonempty slices), the position the loop
stopped at (`finalEnd`), and whether it stopped because the chunk-count
ceiling was hit while text remained (`truncated`). -/
structure ChunkOut where
  windows : List (Nat × Nat)
  finalEnd : Nat
  truncated : Bool
deriving Repr, DecidableEq

/-- The `while start < len(text) and len(chunks) < max_chunks` loop of
`chunk_text`, with cursor `s` and running nonempty-chunk count `cnt`.
`fuel` is an upper bound on `t.length - s`; since the cursor advances by
at least one each iteration, any `fuel ≥ t.length - s` yields the loop's
exact behaviour (when `fuel = 0` the invariant forces `s ≥ t.length`, the
loop's own exit condition). -/
def chunkGoF (t : Doc) (mc ov mk : Nat) : Nat → Nat → Nat → ChunkOut
  | 0, s, _ => ⟨[], s, decide (s < t.length)⟩
  | fuel + 1, s, cnt =>
    if s < t.length ∧ cnt < mk then
      if t.length ≤ chunkEndAt t mc s then
        ⟨[(s, chunkEndAt t mc s)], chunkEndAt t mc s, false⟩
      else
        ⟨(s, chunkEndAt t mc s) ::
            (chunkGoF t mc ov mk fuel (max (chunkEndAt t mc s - ov) (s + 1))
              (cnt + if trim (slice t s (chunkEndAt t mc s)) = [] then 0 else 1)).windows,
          (chunkGoF t mc ov mk fuel (max (chunkEndAt t mc s - ov) (s + 1))
            (cnt + if trim (slice t s (chunkEndAt t mc s)) = [] then 0 else 1)).finalEnd,
          (chunkGoF t mc ov mk fuel (max (chunkEndAt t mc s - ov) (s + 1))
            (cnt + if trim (slice t s (chunkEndAt t mc s)) = [] then 0 else 1)).truncated⟩
    else ⟨[], s, decide (s < t.length)⟩

/-- The chunking loop started at cursor 0 with no chunks yet. -/
def chunkRun (t : Doc) (mc ov mk : Nat) : ChunkOut :=
  chunkGoF t mc ov mk t.length 0 0

/-- `SimpleRAG.chunk_text(text, max_chars, overlap, max_chunks)`:
the trimmed window slices, dropping those that strip to empty. -/
def chunk_text (t : Doc) (mc ov mk : Nat) : List Doc :=
  (chunkRun t mc ov mk).windows.filterMap fun w =>
    let c := trim (slice t w.1 w.2)
    if c = [] then none else some c

/-! ### Q&A Text Parser (`SimpleRAG._parse_qa_pairs`, src/rag_core.py lines 114-142) -/

/-- One parsed question/answer record (`{"question": ..., "answer": ...}`). -/
structure QA where
  question : Doc
  answer : Doc
deriving Repr, DecidableEq

/-- Python truthiness flush `if current_q and current_a:`: emit the pending
record exactly when both slots are set and nonempty. -/
def qaFlush (q a : Option Doc) : List QA :=
  match q, a with
  | some q', some a' => if q' ≠ [] ∧ a' ≠ [] then [⟨q', a'⟩] else []
  | _, _ => []

/-- `line.startswith("Q") and ":" in line`. -/
def isQLine (l : Doc) : Bool := l.head? == some 'Q' && l.contains ':'

/-- `line.startswith("A") and ":" in line` (tested only when the Q test failed). -/
def isALine (l : Doc) : Bool := l.head? == some 'A' && l.contains ':'

/-- `line.split(":", 1)[1]`: everything after the first colon. -/
def afterFirstColon (l : Doc) : Doc := (l.dropWhile (fun c => c != ':')).drop 1

/-- The line scan of `_parse_qa_pairs`: current question and answer slots
(`None` as `none`), accumulated records, final flush at end of input. -/
def parseLoop : List Doc → Option Doc → Option Doc → List QA → List QA
  | [], q, a, acc => acc ++ qaFlush q a
  | ln :: rest, q, a, acc =>
    let l := trim ln
    if isQLine l then
      parseLoop rest (some (trim (afterFirstColon l))) none (acc ++ qaFlush q a)
    else if isALine l then
      parseLoop rest q (some (trim (afterFirstColon l))) acc
    else
      parseLoop rest q a acc

/-- `SimpleRAG._parse_qa_pairs(qa_text)`: strip the whole text, split on
newlines, scan. -/
def parse_qa_pairs (t : Doc) : List QA :=
  parseLoop ((trim t).splitOn '\n') none none []

/-- Instrumented copy of the scan that also records, for each emitted
record, the index of the line at which it was flushed (the input length
for the final flush).  Evidence for the encounter-order guarantee. -/
def parseLoopIdx : List Doc → Nat → Option Doc → Option Doc →
    List (Nat × QA) → List (Nat × QA)
  | [], i, q, a, acc => acc ++ (qaFlush q a).map (fun r => (i, r))
  | ln :: rest, i, q, a, acc =>
    let l := trim ln
    if isQLine l then
      parseLoopIdx rest (i + 1) (some (trim (afterFirstColon l))) none
        (acc ++ (qaFlush q a).map (fun r => (i, r)))
    else if isALine l then
      parseLoopIdx rest (i + 1) q (some (trim (afterFirstColon l))) acc
    else
      parseLoopIdx rest (i + 1) q a acc

/-- The instrumented parser. -/
def parseIdx (t : Doc) : List (Nat × QA) :=
  parseLoopIdx ((trim t).splitOn '\n') 0 none none []

/-! ### Single-shot generation (`SimpleRAG.generate_qa_pairs`, src/rag_core.py lines 65-112) -/

/-- The external generation collaborator: call index and the capped
document text sent inside the prompt (`self.document_text[:8000]`) map
to the raw response text (`message.content[0].text`) or to the message
of the exception the client raised.  `num_questions` only varies the
instruction wording inside the prompt, so its influence on the response
is already absorbed by the oracle. -/
abbrev Oracle := Nat → Doc → Except Doc Doc

/-- The `ValueError("Nessun documento caricato. ...")` message. -/
def noDocError : Doc :=
  ("Nessun documento caricato. Usa extract_text_from_pdf() prima.").toList

/-- `SimpleRAG.generate_qa_pairs` as a function of the loaded document
text `doc` and the oracle at call index `k`: raises (returns `.error`)
when no document is loaded — without consuming a call — and otherwise
sends `doc[:8000]`, returning the parsed response or the client's error.
The second component is the next call index. -/
def generate_qa_pairs (oracle : Oracle) (k : Nat) (doc : Doc) :
    Except Doc (List QA) × Nat :=
  if doc = [] then (.error noDocError, k)
  else
    match oracle k (doc.take PROMPT_DOC_CAP) with
    | .ok t => (.ok (parse_qa_pairs t), k + 1)
    | .error e => (.error e, k + 1)

/-! ### Per-chunk retry loop and Multi-Chunk Aggregator
(`SimpleRAG.generate_qa_pairs_chunked`, src/rag_core.py lines 187-249) -/

/-- One entry of the error ledger: the fields interpolated into
`f"Errore nel chunk \x7bi+1\x7d (tentativo \x7bretry_count\x7d/\x7bmax_retries + 1\x7d): \x7bstr(e)\x7d"`. -/
structure LedgerEntry where
  chunk : Nat
  attempt : Nat
  maxAttempts : Nat
  err : Doc
deriving Repr, DecidableEq

/-- Observable outcome of one chunk's retry loop. -/
structure RetryOut where
  /-- records parsed from the successful call, `[]` if exhausted -/
  records : List QA
  /-- the ledger entries appended (`[]` on success, one entry when exhausted) -/
  errors : List LedgerEntry
  /-- whether the loop exited through the success `break` -/
  ok : Bool
  /-- `self.document_text` when the loop exits -/
  doc : Doc
  /-- next API call index -/
  k : Nat
  /-- backoff waits slept, in order -/
  sleeps : List Nat
  /-- capped document texts actually sent to the collaborator, in order -/
  sent : List Doc
deriving Repr, DecidableEq

/-- The `while retry_count <= max_retries` loop body for one chunk `i`.
`left` counts the loop iterations still admitted by the condition
(`maxRetries + 1 - rc`, see `retryLoop`); recursion on it is structural.
`original` is the `original_text` saved before the loop; the
`finally: self.document_text = original_text` of the source runs at the
end of EVERY iteration, so each exit path restores `original` and —
faithfully to the source — the recursive call for the next attempt runs
with `self.document_text = original`, not the chunk text. -/
def retryGo (oracle : Oracle) (i maxRetries : Nat) (original : Doc) :
    Nat → Nat → Nat → Doc → RetryOut
  | 0, _, k, doc => ⟨[], [], false, doc, k, [], []⟩
  | left + 1, rc, k, doc =>
    match generate_qa_pairs oracle k doc with
    | (.ok qa, k') =>
      ⟨qa, [], true, original, k', [],
        if doc = [] then [] else [doc.take PROMPT_DOC_CAP]⟩
    | (.error e, k') =>
      if rc + 1 > maxRetries then
        ⟨[], [⟨i + 1, rc + 1, maxRetries + 1, e⟩], false, original, k', [],
          if doc = [] then [] else [doc.take PROMPT_DOC_CAP]⟩
      else
        ⟨(retryGo oracle i maxRetries original left (rc + 1) k' original).records,
          (retryGo oracle i maxRetries original left (rc + 1) k' original).errors,
          (retryGo oracle i maxRetries original left (rc + 1) k' original).ok,
          (retryGo oracle i maxRetries original left (rc + 1) k' original).doc,
          (retryGo oracle i maxRetries original left (rc + 1) k' original).k,
          min (2 ^ (rc + 1)) MAX_RETRY_WAIT ::
            (retryGo oracle i maxRetries original left (rc + 1) k' original).sleeps,
          (if doc = [] then [] else [doc.take PROMPT_DOC_CAP]) ++
            (retryGo oracle i maxRetries original left (rc + 1) k' original).sent⟩

/-- The retry loop entered with `retry_count = rc` and
`self.document_text = doc`.  The loop condition `retry_count <= max_retries`
admits exactly `maxRetries + 1 - rc` further iterations. -/
def retryLoop (oracle : Oracle) (i maxRetries : Nat) (original : Doc)
    (rc k : Nat) (doc : Doc) : RetryOut :=
  retryGo oracle i maxRetries original (maxRetries + 1 - rc) rc k doc

/-- Observable outcome of a whole chunked run. -/
structure RunOut where
  /-- `all_qa`: the flat accumulated record list -/
  qa : List QA
  /-- `errors`: the error ledger -/
  errors : List LedgerEntry
  /-- `self.document_text` after the run -/
  doc : Doc
  /-- next API call index -/
  k : Nat
  /-- backoff waits slept, in order -/
  sleeps : List Nat
  /-- capped document texts sent to the collaborator, in order -/
  sent : List Doc
deriving Repr, DecidableEq

/-- The `for i, chunk in enumerate(chunks)` loop of
`generate_qa_pairs_chunked`: per chunk, save `original_text`, install the
chunk text, run the retry loop (`max_retries = DEFAULT_CHUNK_RETRIES` is
passed in by the caller), and continue with the next chunk whatever the
outcome. -/
def chunkedGo (oracle : Oracle) (maxRetries : Nat) :
    List Doc → Nat → Doc → Nat → RunOut
  | [], _, doc, k => ⟨[], [], doc, k, [], []⟩
  | c :: rest, i, doc, k =>
    let r := retryLoop oracle i maxRetries doc 0 k c
    let out := chunkedGo oracle maxRetries rest (i + 1) r.doc r.k
    ⟨r.records ++ out.qa, r.errors ++ out.errors, out.doc, out.k,
      r.sleeps ++ out.sleeps, r.sent ++ out.sent⟩

/-- A full chunked run over the chunks of `doc` (chunk_size `cs`,
overlap `ov`, `max_chunks` left at its default 100), starting at call
index 0, with all observable effects. -/
def chunkedRun (oracle : Oracle) (doc : Doc) (cs ov : Nat) : RunOut :=
  chunkedGo oracle DEFAULT_CHUNK_RETRIES (chunk_text doc cs ov DEFAULT_MAX_CHUNKS) 0 doc 0

/-- `SimpleRAG.generate_qa_pairs_chunked(num_questions, chunk_size, overlap)`:
raises `ValueError` on an empty document, otherwise returns `all_qa` —
and only `all_qa`; the `errors` ledger is logged but not returned. -/
def generate_qa_pairs_chunked (oracle : Oracle) (doc : Doc) (cs ov : Nat) :
    Except Doc (List QA) :=
  if doc = [] then .error noDocError
  else .ok (chunkedRun oracle doc cs ov).qa

/-! ### Helper lemmas: `trim`, `slice`, `rfindPeriod`, `chunkEndAt` -/

theorem length_dropWhile_le {α : Type} (p : α → Bool) (l : List α) :
    (l.dropWhile p).length ≤ l.length := by
  induction l with
  | nil => simp
  | cons a l ih =>
    rw [List.dropWhile_cons]
    split
    · exact le_trans ih (by simp)
    · simp

theorem dropWhile_head_not {α : Type} (p : α → Bool) (l : List α) (a : α)
    (h : (l.dropWhile p).head? = some a) : p a = false := by
  have := List.head?_dropWhile_not p l
  rw [h] at this
  exact this

theorem dropWhile_of_head_not {α : Type} (p : α → Bool) (l : List α) (a : α)
    (h : l.head? = some a) (hp : p a = false) : l.dropWhile p = l := by
  cases l with
  | nil => rfl
  | cons b l =>
    rw [List.head?_cons, Option.some.injEq] at h
    subst h
    rw [List.dropWhile_cons, hp]
    simp

theorem dropWhile_idem {α : Type} (p : α → Bool) (l : List α) :
    (l.dropWhile p).dropWhile p = l.dropWhile p := by
  cases h : (l.dropWhile p).head? with
  | none =>
    have : l.dropWhile p = [] := by
      cases hl : l.dropWhile p with
      | nil => rfl
      | cons a t => rw [hl, List.head?_cons] at h; cases h
    rw [this]
    rfl
  | some a => exact dropWhile_of_head_not p _ a h (dropWhile_head_not p l a h)

theorem getLast?_dropWhile {α : Type} (p : α → Bool) (l : List α)
    (h : l.dropWhile p ≠ []) : (l.dropWhile p).getLast? = l.getLast? := by
  induction l with
  | nil => simp at h
  | cons a l ih =>
    rw [List.dropWhile_cons]
    rw [List.dropWhile_cons] at h
    split at h
    · rw [if_pos (by assumption)]
      have hl : l ≠ [] := by
        intro he
        exact h (by simp [he, List.dropWhile])
      rw [ih h, List.getLast?_cons]
      cases hg : l.getLast? with
      | none => exact absurd (List.getLast?_isSome.mpr hl) (by simp [hg])
      | some b => simp
    · rw [if_neg (by assumption)]

theorem trim_length_le (l : Doc) : (trim l).length ≤ l.length := by
  unfold trim
  calc ((l.dropWhile Char.isWhitespace).reverse.dropWhile Char.isWhitespace).reverse.length
      = ((l.dropWhile Char.isWhitespace).reverse.dropWhile Char.isWhitespace).length := by
        rw [List.length_reverse]
    _ ≤ (l.dropWhile Char.isWhitespace).reverse.length := length_dropWhile_le _ _
    _ = (l.dropWhile Char.isWhitespace).length := by rw [List.length_reverse]
    _ ≤ l.length := length_dropWhile_le _ _

theorem trim_trim (l : Doc) : trim (trim l) = trim l := by
  by_cases hC : (l.dropWhile Char.isWhitespace).reverse.dropWhile Char.isWhitespace = []
  · unfold trim
    rw [hC]
    rfl
  · have h1 : ((l.dropWhile Char.isWhitespace).reverse.dropWhile
        Char.isWhitespace).reverse.dropWhile Char.isWhitespace =
        ((l.dropWhile Char.isWhitespace).reverse.dropWhile Char.isWhitespace).reverse := by
      set C := (l.dropWhile Char.isWhitespace).reverse.dropWhile Char.isWhitespace with hCdef
      cases hh : C.reverse.head? with
      | none =>
        rw [List.head?_reverse] at hh
        exact absurd (List.getLast?_isSome.mpr hC) (by simp [hh])
      | some a =>
        refine dropWhile_of_head_not _ _ a hh ?_
        rw [List.head?_reverse, hCdef, getLast?_dropWhile _ _ hC,
          List.getLast?_reverse] at hh
        exact dropWhile_head_not _ _ a hh
    unfold trim
    rw [h1, List.reverse_reverse, dropWhile_idem]

/-- A nonempty trimmed list is fixed by `trim`. -/
theorem trim_eq_self_of_trim (l c : Doc) (h : trim l = c) : trim c = c := by
  subst h
  exact trim_trim l

theorem slice_length_le (t : Doc) (s e : Nat) : (slice t s e).length ≤ e - s := by
  unfold slice
  rw [List.length_drop, List.length_take]
  omega

theorem rfindPeriod_bounds (t : Doc) (s e p : Nat)
    (h : rfindPeriod t s e = some p) : s ≤ p ∧ p < e := by
  unfold rfindPeriod at h
  have hm : p ∈ (List.range' s (e - s)).filter (fun p => t.getD p ' ' == '.') :=
    List.mem_of_mem_getLast? (Option.mem_def.mpr h)
  have := (List.mem_filter.mp hm).1
  rw [List.mem_range'_1] at this
  omega

theorem chunkEndAt_le_len (t : Doc) (mc s : Nat) : chunkEndAt t mc s ≤ t.length := by
  unfold chunkEndAt
  split
  · split
    · split
      · rename_i e0lt p hp _
        have := rfindPeriod_bounds t s _ p hp
        omega
      · omega
    · omega
  · omega

theorem chunkEndAt_le (t : Doc) (mc s : Nat) : chunkEndAt t mc s ≤ s + mc := by
  unfold chunkEndAt
  split
  · split
    · split
      · rename_i e0lt p hp _
        have := rfindPeriod_bounds t s _ p hp
        omega
      · omega
    · omega
  · omega

theorem lt_chunkEndAt (t : Doc) (mc s : Nat) (hmc : 0 < mc) (hs : s < t.length) :
    s + 1 ≤ chunkEndAt t mc s := by
  unfold chunkEndAt
  split
  · split
    · split
      · omega
      · omega
    · omega
  · omega

/-! ### Helper lemmas: the chunking loop -/

theorem chunkGoF_mem_end (t : Doc) (mc ov mk : Nat) :
    ∀ fuel s cnt, ∀ w ∈ (chunkGoF t mc ov mk fuel s cnt).windows,
      w.2 = chunkEndAt t mc w.1 ∧ s ≤ w.1 := by
  intro fuel
  induction fuel with
  | zero => intro s cnt w hw; simp [chunkGoF] at hw
  | succ fuel ih =>
    intro s cnt w hw
    rw [chunkGoF] at hw
    split at hw
    · split at hw
      · rcases List.mem_singleton.mp hw with rfl
        exact ⟨rfl, le_refl _⟩
      · rcases List.mem_cons.mp hw with rfl | hw'
        · exact ⟨rfl, le_refl _⟩
        · obtain ⟨h1, h2⟩ := ih _ _ w hw'
          refine ⟨h1, le_trans ?_ h2⟩
          omega
    · simp at hw

theorem chunkGoF_head_start (t : Doc) (mc ov mk : Nat) (fuel s cnt : Nat) (w : Nat × Nat)
    (h : (chunkGoF t mc ov mk fuel s cnt).windows.head? = some w) : w.1 = s := by
  cases fuel with
  | zero => simp [chunkGoF] at h
  | succ fuel =>
    rw [chunkGoF] at h
    split at h
    · split at h
      · rw [List.head?_cons, Option.some.injEq] at h; rw [← h]
      · rw [List.head?_cons, Option.some.injEq] at h; rw [← h]
    · simp at h

theorem chunkGoF_chain (t : Doc) (mc ov mk : Nat) (hmc : 0 < mc) :
    ∀ fuel s cnt, List.Chain'
      (fun w1 w2 => w1.1 < w2.1 ∧ w2.1 ≤ w1.2)
      (chunkGoF t mc ov mk fuel s cnt).windows := by
  intro fuel
  induction fuel with
  | zero => intro s cnt; simp [chunkGoF]
  | succ fuel ih =>
    intro s cnt
    rw [chunkGoF]
    split
    · rename_i hguard
      split
      · simp
      · rename_i hne
        rw [List.chain'_cons']
        constructor
        · intro w hw
          have hstart := chunkGoF_head_start t mc ov mk fuel _ _ w (Option.mem_def.mp hw)
          have he : s + 1 ≤ chunkEndAt t mc s := lt_chunkEndAt t mc s hmc hguard.1
          constructor
          · omega
          · rw [hstart]
            have : chunkEndAt t mc s - ov ≤ chunkEndAt t mc s := by omega
            omega
        · exact ih _ _
    · simp

theorem chunkGoF_cover (t : Doc) (mc ov mk : Nat) (hmc : 0 < mc) :
    ∀ fuel s cnt, t.length ≤ s + fuel →
      ∀ j, s ≤ j → j < (chunkGoF t mc ov mk fuel s cnt).finalEnd →
        ∃ w ∈ (chunkGoF t mc ov mk fuel s cnt).windows, w.1 ≤ j ∧ j < w.2 := by
  intro fuel
  induction fuel with
  | zero =>
    intro s cnt hfuel j hj hj'
    simp only [chunkGoF] at hj'
    omega
  | succ fuel ih =>
    intro s cnt hfuel j hj hj'
    rw [chunkGoF] at hj' ⊢
    by_cases hguard : s < t.length ∧ cnt < mk
    · rw [if_pos hguard] at hj' ⊢
      by_cases hle : t.length ≤ chunkEndAt t mc s
      · rw [if_pos hle] at hj' ⊢
        exact ⟨(s, chunkEndAt t mc s), List.mem_singleton.mpr rfl, hj, hj'⟩
      · rw [if_neg hle] at hj' ⊢
        dsimp only at hj' ⊢
        by_cases hje : j < chunkEndAt t mc s
        · exact ⟨(s, chunkEndAt t mc s), List.mem_cons_self _ _, hj, hje⟩
        · have he : s + 1 ≤ chunkEndAt t mc s := lt_chunkEndAt t mc s hmc hguard.1
          obtain ⟨w, hw, hw1, hw2⟩ := ih (max (chunkEndAt t mc s - ov) (s + 1))
            (cnt + if trim (slice t s (chunkEndAt t mc s)) = [] then 0 else 1)
            (by omega) j (by omega) hj'
          exact ⟨w, List.mem_cons_of_mem _ hw, hw1, hw2⟩
    · rw [if_neg hguard] at hj' ⊢
      dsimp only at hj'
      omega

theorem chunkGoF_finalEnd (t : Doc) (mc ov mk : Nat) :
    ∀ fuel s cnt, s ≤ t.length → t.length ≤ s + fuel →
      (chunkGoF t mc ov mk fuel s cnt).truncated = false →
      (chunkGoF t mc ov mk fuel s cnt).finalEnd = t.length := by
  intro fuel
  induction fuel with
  | zero =>
    intro s cnt hs hfuel _
    simp only [chunkGoF]
    omega
  | succ fuel ih =>
    intro s cnt hs hfuel htr
    rw [chunkGoF] at htr ⊢
    by_cases hguard : s < t.length ∧ cnt < mk
    · rw [if_pos hguard] at htr ⊢
      by_cases hle : t.length ≤ chunkEndAt t mc s
      · rw [if_pos hle] at htr ⊢
        have := chunkEndAt_le_len t mc s
        dsimp only
        omega
      · rw [if_neg hle] at htr ⊢
        dsimp only at htr ⊢
        have he : chunkEndAt t mc s ≤ t.length := chunkEndAt_le_len t mc s
        exact ih _ _ (by omega) (by omega) htr
    · rw [if_neg hguard] at htr ⊢
      dsimp only at htr ⊢
      simp only [decide_eq_false_iff_not] at htr
      omega

/-! ### Helper lemmas: the parser -/

theorem qaFlush_mem (q a : Option Doc) (r : QA) (h : r ∈ qaFlush q a) :
    q = some r.question ∧ a = some r.answer ∧ r.question ≠ [] ∧ r.answer ≠ [] := by
  cases q with
  | none => simp [qaFlush] at h
  | some q' =>
    cases a with
    | none => simp [qaFlush] at h
    | some a' =>
      simp only [qaFlush] at h
      split at h
      · rcases List.mem_singleton.mp h with rfl
        rename_i hne
        exact ⟨rfl, rfl, hne.1, hne.2⟩
      · simp at h

theorem qaFlush_length (q a : Option Doc) : (qaFlush q a).length ≤ 1 := by
  cases q with
  | none => simp [qaFlush]
  | some q' =>
    cases a with
    | none => simp [qaFlush]
    | some a' =>
      simp only [qaFlush]
      split <;> simp

theorem pairwise_of_length_le_one {α : Type} {R : α → α → Prop} {l : List α}
    (h : l.length ≤ 1) : List.Pairwise R l := by
  cases l with
  | nil => exact List.Pairwise.nil
  | cons a l =>
    cases l with
    | nil => simp
    | cons b l => simp at h

theorem map_snd_tag (i : Nat) (xs : List QA) :
    (xs.map (fun r => (i, r))).map Prod.snd = xs := by
  simp [List.map_map]

theorem parseLoop_good : ∀ (lines : List Doc) (q a : Option Doc) (acc : List QA),
    (∀ r ∈ acc, trim r.question = r.question ∧ r.question ≠ [] ∧
      trim r.answer = r.answer ∧ r.answer ≠ []) →
    (∀ s, q = some s → trim s = s) →
    (∀ s, a = some s → trim s = s) →
    ∀ r ∈ parseLoop lines q a acc, trim r.question = r.question ∧ r.question ≠ [] ∧
      trim r.answer = r.answer ∧ r.answer ≠ [] := by
  intro lines
  induction lines with
  | nil =>
    intro q a acc hacc hq ha r hr
    rw [parseLoop] at hr
    rcases List.mem_append.mp hr with hr' | hr'
    · exact hacc r hr'
    · obtain ⟨h1, h2, h3, h4⟩ := qaFlush_mem q a r hr'
      exact ⟨hq _ h1, h3, ha _ h2, h4⟩
  | cons ln rest ih =>
    intro q a acc hacc hq ha r hr
    rw [parseLoop] at hr
    split at hr
    · refine ih _ _ _ ?_ ?_ ?_ r hr
      · intro r' hr'
        rcases List.mem_append.mp hr' with h' | h'
        · exact hacc r' h'
        · obtain ⟨h1, h2, h3, h4⟩ := qaFlush_mem q a r' h'
          exact ⟨hq _ h1, h3, ha _ h2, h4⟩
      · intro s hs
        rw [Option.some.injEq] at hs
        rw [← hs, trim_trim]
      · intro s hs
        cases hs
    · split at hr
      · refine ih _ _ _ hacc hq ?_ r hr
        intro s hs
        rw [Option.some.injEq] at hs
        rw [← hs, trim_trim]
      · exact ih _ _ _ hacc hq ha r hr

theorem parseLoopIdx_map : ∀ (lines : List Doc) (i : Nat) (q a : Option Doc)
    (accI : List (Nat × QA)) (acc : List QA), accI.map Prod.snd = acc →
    (parseLoopIdx lines i q a accI).map Prod.snd = parseLoop lines q a acc := by
  intro lines
  induction lines with
  | nil =>
    intro i q a accI acc hacc
    rw [parseLoopIdx, parseLoop, List.map_append, hacc, map_snd_tag]
  | cons ln rest ih =>
    intro i q a accI acc hacc
    rw [parseLoopIdx, parseLoop]
    split
    · exact ih _ _ _ _ _ (by rw [List.map_append, hacc, map_snd_tag])
    · split
      · exact ih _ _ _ _ _ hacc
      · exact ih _ _ _ _ _ hacc

theorem parseLoopIdx_pairwise : ∀ (lines : List Doc) (i : Nat) (q a : Option Doc)
    (accI : List (Nat × QA)),
    (∀ e ∈ accI, e.1 < i) →
    List.Pairwise (fun x y => x.1 < y.1) accI →
    List.Pairwise (fun x y => x.1 < y.1) (parseLoopIdx lines i q a accI) := by
  intro lines
  induction lines with
  | nil =>
    intro i q a accI hlt hpw
    rw [parseLoopIdx]
    rw [List.pairwise_append]
    refine ⟨hpw, pairwise_of_length_le_one (by rw [List.length_map]; exact qaFlush_length q a), ?_⟩
    intro x hx y hy
    obtain ⟨r, _, hr⟩ := List.mem_map.mp hy
    rw [← hr]
    exact hlt x hx
  | cons ln rest ih =>
    intro i q a accI hlt hpw
    rw [parseLoopIdx]
    split
    · refine ih _ _ _ _ ?_ ?_
      · intro e he
        rcases List.mem_append.mp he with h' | h'
        · exact Nat.lt_succ_of_lt (hlt e h')
        · obtain ⟨r, _, hr⟩ := List.mem_map.mp h'
          rw [← hr]
          exact Nat.lt_succ_self i
      · rw [List.pairwise_append]
        refine ⟨hpw, pairwise_of_length_le_one (by rw [List.length_map]; exact qaFlush_length q a), ?_⟩
        intro x hx y hy
        obtain ⟨r, _, hr⟩ := List.mem_map.mp hy
        rw [← hr]
        exact hlt x hx
    · split
      · exact ih _ _ _ _ (fun e he => Nat.lt_succ_of_lt (hlt e he)) hpw
      · exact ih _ _ _ _ (fun e he => Nat.lt_succ_of_lt (hlt e he)) hpw

/-! ### Helper lemmas: retry loop and aggregator -/

theorem retryGo_doc_orig (oracle : Oracle) (i mr : Nat) (orig : Doc) :
    ∀ left rc k, (retryGo oracle i mr orig left rc k orig).doc = orig := by
  intro left
  induction left with
  | zero => intro rc k; rfl
  | succ left ih =>
    intro rc k
    rw [retryGo]
    rcases hgen : generate_qa_pairs oracle k orig with ⟨r1, k'⟩
    cases r1 with
    | ok qa => rfl
    | error e =>
      dsimp only
      split
      · rfl
      · exact ih _ _

theorem retryLoop_doc (oracle : Oracle) (i mr k : Nat) (orig c : Doc) :
    (retryLoop oracle i mr orig 0 k c).doc = orig := by
  unfold retryLoop
  rw [Nat.sub_zero, retryGo]
  rcases hgen : generate_qa_pairs oracle k c with ⟨r1, k'⟩
  cases r1 with
  | ok qa => rfl
  | error e =>
    dsimp only
    split
    · rfl
    · exact retryGo_doc_orig oracle i mr orig mr _ _

theorem retryGo_fail_range (oracle : Oracle) (err : Nat → Doc) (i mr : Nat) (orig : Doc)
    (horig : orig ≠ []) :
    ∀ left rc k, 1 ≤ left → rc + left = mr + 1 →
      (∀ j, k ≤ j → j < k + left → ∀ x, oracle j x = Except.error (err j)) →
      (retryGo oracle i mr orig left rc k orig).records = [] ∧
      (retryGo oracle i mr orig left rc k orig).errors =
        [⟨i + 1, mr + 1, mr + 1, err (k + left - 1)⟩] ∧
      (retryGo oracle i mr orig left rc k orig).ok = false ∧
      (retryGo oracle i mr orig left rc k orig).k = k + left ∧
      (retryGo oracle i mr orig left rc k orig).sleeps =
        (List.range' (rc + 1) (left - 1)).map (fun n => min (2 ^ n) MAX_RETRY_WAIT) ∧
      (retryGo oracle i mr orig left rc k orig).doc = orig := by
  intro left
  induction left with
  | zero => intro rc k h1 _ _; exact absurd h1 (by omega)
  | succ m ih =>
    intro rc k _ hsum horacle
    rw [retryGo]
    have hgen : generate_qa_pairs oracle k orig = (Except.error (err k), k + 1) := by
      unfold generate_qa_pairs
      rw [if_neg horig, horacle k (le_refl k) (by omega)]
    rw [hgen]
    dsimp only
    by_cases hgt : rc + 1 > mr
    · rw [if_pos hgt]
      have hm : m = 0 := by omega
      subst hm
      have hrc : rc + 1 = mr + 1 := by omega
      refine ⟨rfl, ?_, rfl, rfl, ?_, rfl⟩
      · rw [hrc]; simp
      · simp
    · rw [if_neg hgt]
      have h1m : 1 ≤ m := by omega
      obtain ⟨e1, e2, e3, e4, e5, e6⟩ := ih (rc + 1) (k + 1) h1m (by omega)
        (fun j hj1 hj2 x => horacle j (by omega) (by omega) x)
      dsimp only
      refine ⟨e1, ?_, e3, ?_, ?_, e6⟩
      · rw [e2, (by omega : k + 1 + m - 1 = k + (m + 1) - 1)]
      · rw [e4]; omega
      · rw [e5, Nat.add_sub_cancel, (by omega : m = (m - 1) + 1), List.range'_succ,
          List.map_cons]
        simp

theorem retryLoop_fail_range (oracle : Oracle) (err : Nat → Doc) (i mr k : Nat)
    (orig c : Doc)
    (horacle : ∀ j, k ≤ j → j < k + (mr + 1) → ∀ x, oracle j x = Except.error (err j))
    (hc : c ≠ []) (horig : orig ≠ []) :
    (retryLoop oracle i mr orig 0 k c).records = [] ∧
    (retryLoop oracle i mr orig 0 k c).errors =
      [⟨i + 1, mr + 1, mr + 1, err (k + mr)⟩] ∧
    (retryLoop oracle i mr orig 0 k c).ok = false ∧
    (retryLoop oracle i mr orig 0 k c).k = k + (mr + 1) ∧
    (retryLoop oracle i mr orig 0 k c).sleeps =
      (List.range' 1 mr).map (fun n => min (2 ^ n) MAX_RETRY_WAIT) ∧
    (retryLoop oracle i mr orig 0 k c).doc = orig := by
  unfold retryLoop
  rw [Nat.sub_zero, retryGo]
  have hgen : generate_qa_pairs oracle k c = (Except.error (err k), k + 1) := by
    unfold generate_qa_pairs
    rw [if_neg hc, horacle k (le_refl k) (by omega)]
  rw [hgen]
  dsimp only
  by_cases hgt : 0 + 1 > mr
  · rw [if_pos hgt]
    have hmr : mr = 0 := by omega
    subst hmr
    refine ⟨rfl, by simp, rfl, rfl, by simp, rfl⟩
  · rw [if_neg hgt]
    have h1m : 1 ≤ mr := by omega
    obtain ⟨e1, e2, e3, e4, e5, e6⟩ :=
      retryGo_fail_range oracle err i mr orig horig mr (0 + 1) (k + 1) h1m (by omega)
        (fun j hj1 hj2 x => horacle j (by omega) (by omega) x)
    dsimp only
    refine ⟨e1, ?_, e3, ?_, ?_, e6⟩
    · rw [e2, (by omega : k + 1 + mr - 1 = k + mr)]
    · rw [e4]; omega
    · rw [e5, (by omega : mr = (mr - 1) + 1), List.range'_succ, List.map_cons]
      simp

theorem retryLoop_first_ok (oracle : Oracle) (i mr k : Nat) (orig c r : Doc)
    (hc : c ≠ []) (hok : oracle k (c.take PROMPT_DOC_CAP) = Except.ok r) :
    retryLoop oracle i mr orig 0 k c =
      ⟨parse_qa_pairs r, [], true, orig, k + 1, [], [c.take PROMPT_DOC_CAP]⟩ := by
  unfold retryLoop
  rw [Nat.sub_zero, retryGo]
  have hgen : generate_qa_pairs oracle k c = (Except.ok (parse_qa_pairs r), k + 1) := by
    unfold generate_qa_pairs
    rw [if_neg hc, hok]
  rw [hgen]
  dsimp only
  rw [if_neg hc]

theorem chunkedGo_doc (oracle : Oracle) (mr : Nat) :
    ∀ (chunks : List Doc) (i : Nat) (doc : Doc) (k : Nat),
      (chunkedGo oracle mr chunks i doc k).doc = doc := by
  intro chunks
  induction chunks with
  | nil => intro i doc k; rfl
  | cons c rest ih =>
    intro i doc k
    simp only [chunkedGo]
    rw [ih]
    exact retryLoop_doc oracle i mr k doc c

theorem chunk_text_mem (t : Doc) (mc ov mk : Nat) (c : Doc)
    (h : c ∈ chunk_text t mc ov mk) :
    trim c = c ∧ c ≠ [] ∧
      ∃ w ∈ (chunkRun t mc ov mk).windows, c = trim (slice t w.1 w.2) := by
  unfold chunk_text at h
  obtain ⟨w, hw, hfw⟩ := List.mem_filterMap.mp h
  dsimp only at hfw
  split at hfw
  · cases hfw
  · rename_i hne
    rw [Option.some.injEq] at hfw
    subst hfw
    exact ⟨trim_trim _, hne, w, hw, rfl⟩

/-! ### The claims -/

/-- C1: the claim says that on every generation attempt for a chunk —
including retries — the active document text (and hence the capped text
sent to the collaborator) is the chunk's text.  The code violates this:
the `finally` that restores `self.document_text = original_text` sits
inside the retry `while` loop, so it runs at the end of the FIRST attempt
already, and every retry calls `generate_qa_pairs` with the original full
document text installed.  Witnessed here concretely: for document
`"aa.bb"` chunked as `["aa.", "bb"]` with the generation call failing
once and then succeeding, the texts sent are `"aa."` (chunk 1, attempt 1),
`"aa.bb"` (chunk 1, attempt 2 — the FULL document, not the chunk) and
`"bb"` (chunk 2). -/
theorem c1_retry_sends_original_not_chunk :
    (chunkedRun
        (fun j _ => if j = 0 then Except.error (("boom").toList)
          else Except.ok (("Q1: q\nA1: a").toList))
        (("aa.bb").toList) 3 0).sent
      = [("aa.").toList, ("aa.bb").toList, ("bb").toList] ∧
    ("aa.bb").toList ≠ ("aa.").toList := by
  decide

/-- C2 counterexample: the claim says `generate_qa_pairs_chunked` returns
the flat record list AND the error ledger together to its caller.  It does
not: it returns only `all_qa`.  Two runs over the same document whose
internal ledgers differ (one has a persistently failing second chunk, the
other a succeeding second chunk whose response parses to no records)
produce identical return values, so the return cannot carry the ledger. -/
theorem c2_return_carries_no_ledger :
    (generate_qa_pairs_chunked
        (fun j _ => if j = 0 then Except.ok (("Q1: q\nA1: a").toList)
          else Except.error (("boom").toList))
        (("aa.bb").toList) 3 0
      = generate_qa_pairs_chunked
        (fun j _ => if j = 0 then Except.ok (("Q1: q\nA1: a").toList)
          else Except.ok (("x").toList))
        (("aa.bb").toList) 3 0) ∧
    (chunkedRun
        (fun j _ => if j = 0 then Except.ok (("Q1: q\nA1: a").toList)
          else Except.error (("boom").toList))
        (("aa.bb").toList) 3 0).errors
      ≠ (chunkedRun
        (fun j _ => if j = 0 then Except.ok (("Q1: q\nA1: a").toList)
          else Except.ok (("x").toList))
        (("aa.bb").toList) 3 0).errors :=
  ⟨rfl, by decide⟩

/-- C2 amended: for every non-empty document text the aggregator returns
(without raising) exactly the flat accumulated record list of the run;
the error ledger is accumulated and logged internally but is not part of
the return value. -/
theorem c2_returns_only_records (oracle : Oracle) (doc : Doc) (cs ov : Nat)
    (h : doc ≠ []) :
    generate_qa_pairs_chunked oracle doc cs ov =
      Except.ok (chunkedRun oracle doc cs ov).qa := by
  unfold generate_qa_pairs_chunked
  rw [if_neg h]

/-- Witness for C2's amended theorem at a concrete input. -/
theorem c2_returns_only_records_witness :
    generate_qa_pairs_chunked (fun _ _ => Except.error []) (("a").toList) 3 0 =
      Except.ok (chunkedRun (fun _ _ => Except.error []) (("a").toList) 3 0).qa :=
  c2_returns_only_records (fun _ _ => Except.error []) (("a").toList) 3 0 (by decide)

/-- C3: whatever the outcome of a chunk's processing (success, retried
failure, exhaustion), the session's document text equals the pre-run
document text after each chunk's retry loop exits (hence before the next
chunk's processing starts) and when the whole run returns: the retry loop
always exits with `self.document_text = original_text`, the per-chunk loop
threads exactly that value to the next chunk, and the full run preserves
the document text. -/
theorem c3_document_text_restored :
    (∀ (oracle : Oracle) (i mr k : Nat) (orig c : Doc),
      (retryLoop oracle i mr orig 0 k c).doc = orig) ∧
    (∀ (oracle : Oracle) (mr : Nat) (chunks : List Doc) (i : Nat) (doc : Doc) (k : Nat),
      (chunkedGo oracle mr chunks i doc k).doc = doc) ∧
    (∀ (oracle : Oracle) (doc : Doc) (cs ov : Nat),
      (chunkedRun oracle doc cs ov).doc = doc) :=
  ⟨fun oracle i mr k orig c => retryLoop_doc oracle i mr k orig c,
   fun oracle mr chunks i doc k => chunkedGo_doc oracle mr chunks i doc k,
   fun oracle doc cs ov =>
     chunkedGo_doc oracle DEFAULT_CHUNK_RETRIES (chunk_text doc cs ov DEFAULT_MAX_CHUNKS) 0 doc 0⟩

/-- C4: when a document splits into 3 chunks and every generation call for
chunk 2 fails (all `DEFAULT_CHUNK_RETRIES + 1 = 3` attempts, at call
indices 1, 2, 3) while chunks 1 and 3 succeed on their first attempts
(call indices 0 and 4), the run does not abort: it still returns the
records parsed from chunks 1 and 3, and the internal error ledger records
exactly one entry naming chunk 2 (with the attempt budget 3/3 and the last
error message). -/
theorem c4_failing_chunk_skipped (oracle : Oracle) (doc c1 c2 c3 r1 r3 e1 e2 e3 : Doc)
    (cs ov : Nat)
    (hchunks : chunk_text doc cs ov DEFAULT_MAX_CHUNKS = [c1, c2, c3])
    (hdoc : doc ≠ [])
    (h0 : oracle 0 (c1.take PROMPT_DOC_CAP) = Except.ok r1)
    (h1 : ∀ x, oracle 1 x = Except.error e1)
    (h2 : ∀ x, oracle 2 x = Except.error e2)
    (h3 : ∀ x, oracle 3 x = Except.error e3)
    (h4 : oracle 4 (c3.take PROMPT_DOC_CAP) = Except.ok r3) :
    generate_qa_pairs_chunked oracle doc cs ov =
      Except.ok (parse_qa_pairs r1 ++ parse_qa_pairs r3) ∧
    (chunkedRun oracle doc cs ov).errors = [⟨2, 3, 3, e3⟩] := by
  have hm1 : c1 ∈ chunk_text doc cs ov DEFAULT_MAX_CHUNKS := by rw [hchunks]; simp
  have hm2 : c2 ∈ chunk_text doc cs ov DEFAULT_MAX_CHUNKS := by rw [hchunks]; simp
  have hm3 : c3 ∈ chunk_text doc cs ov DEFAULT_MAX_CHUNKS := by rw [hchunks]; simp
  have hc1 : c1 ≠ [] := (chunk_text_mem doc cs ov DEFAULT_MAX_CHUNKS c1 hm1).2.1
  have hc2 : c2 ≠ [] := (chunk_text_mem doc cs ov DEFAULT_MAX_CHUNKS c2 hm2).2.1
  have hc3 : c3 ≠ [] := (chunk_text_mem doc cs ov DEFAULT_MAX_CHUNKS c3 hm3).2.1
  have h_r0 := retryLoop_first_ok oracle 0 DEFAULT_CHUNK_RETRIES 0 doc c1 r1 hc1 h0
  have hor : ∀ j, 1 ≤ j → j < 1 + (DEFAULT_CHUNK_RETRIES + 1) → ∀ x,
      oracle j x = Except.error
        ((fun n => if n = 1 then e1 else if n = 2 then e2 else e3) j) := by
    intro j hj1 hj2 x
    unfold DEFAULT_CHUNK_RETRIES at hj2
    interval_cases j
    · simpa using h1 x
    · simpa using h2 x
    · simpa using h3 x
  obtain ⟨f1, f2, f3, f4, f5, f6⟩ :=
    retryLoop_fail_range oracle
      (fun n => if n = 1 then e1 else if n = 2 then e2 else e3)
      1 DEFAULT_CHUNK_RETRIES 1 doc c2 hor hc2 hdoc
  have h_r2 := retryLoop_first_ok oracle (0 + 1 + 1) DEFAULT_CHUNK_RETRIES
    (1 + (DEFAULT_CHUNK_RETRIES + 1)) doc c3 r3 hc3 (by exact h4)
  have hqa : (chunkedRun oracle doc cs ov).qa = parse_qa_pairs r1 ++ parse_qa_pairs r3 := by
    unfold chunkedRun
    rw [hchunks]
    simp only [chunkedGo]
    rw [h_r0]
    dsimp only
    rw [f1, f4, f6]
    rw [h_r2]
    dsimp only
    simp
  have herr : (chunkedRun oracle doc cs ov).errors = [⟨2, 3, 3, e3⟩] := by
    unfold chunkedRun
    rw [hchunks]
    simp only [chunkedGo]
    rw [h_r0]
    dsimp only
    rw [f2, f4, f6]
    rw [h_r2]
    dsimp only
    simp [DEFAULT_CHUNK_RETRIES]
  refine ⟨?_, herr⟩
  unfold generate_qa_pairs_chunked
  rw [if_neg hdoc, hqa]

/-- Witness for C4 at a concrete input: the document `"aa.bb.cc"` chunks
to `["aa.", "bb.", "cc"]`; the oracle succeeds at call 0 and 4 and fails
at calls 1-3. -/
theorem c4_failing_chunk_skipped_witness :
    generate_qa_pairs_chunked
        (fun k _ => if k = 0 then Except.ok (("Q1: q\nA1: a").toList)
          else if k = 4 then Except.ok (("Q1: r\nA1: s").toList)
          else Except.error (("err" ++ toString k).toList))
        (("aa.bb.cc").toList) 3 0 =
      Except.ok (parse_qa_pairs (("Q1: q\nA1: a").toList) ++
        parse_qa_pairs (("Q1: r\nA1: s").toList)) ∧
    (chunkedRun
        (fun k _ => if k = 0 then Except.ok (("Q1: q\nA1: a").toList)
          else if k = 4 then Except.ok (("Q1: r\nA1: s").toList)
          else Except.error (("err" ++ toString k).toList))
        (("aa.bb.cc").toList) 3 0).errors = [⟨2, 3, 3, ("err3").toList⟩] :=
  c4_failing_chunk_skipped
    (fun k _ => if k = 0 then Except.ok (("Q1: q\nA1: a").toList)
      else if k = 4 then Except.ok (("Q1: r\nA1: s").toList)
      else Except.error (("err" ++ toString k).toList))
    (("aa.bb.cc").toList) (("aa.").toList) (("bb.").toList) (("cc").toList)
    (("Q1: q\nA1: a").toList) (("Q1: r\nA1: s").toList)
    (("err1").toList) (("err2").toList) (("err3").toList) 3 0
    (by decide) (by decide) rfl (fun x => rfl) (fun x => rfl) (fun x => rfl) rfl

/-- C5: for a chunk whose generation call fails on every attempt, the
retry loop makes exactly `max_retries + 1` calls (the call counter
advances from `k` to `k + (max_retries + 1)`), sleeps
`min(2^attempt, MAX_RETRY_WAIT)` seconds before each of the `max_retries`
retries (attempt = 1..max_retries), then ends un-successful with no
records and exactly one exhausted ledger entry carrying the LAST error
message and the attempt budget — and no exception crosses the
aggregator's caller boundary: for any non-empty document the aggregator
still returns an ordinary result. -/
theorem c5_retry_budget_and_backoff (oracle : Oracle) (err : Nat → Doc)
    (i mr k : Nat) (orig c : Doc)
    (horacle : ∀ j x, oracle j x = Except.error (err j))
    (hc : c ≠ []) (horig : orig ≠ []) :
    (retryLoop oracle i mr orig 0 k c).k = k + (mr + 1) ∧
    (retryLoop oracle i mr orig 0 k c).sleeps =
      (List.range' 1 mr).map (fun n => min (2 ^ n) MAX_RETRY_WAIT) ∧
    (retryLoop oracle i mr orig 0 k c).ok = false ∧
    (retryLoop oracle i mr orig 0 k c).records = [] ∧
    (retryLoop oracle i mr orig 0 k c).errors =
      [⟨i + 1, mr + 1, mr + 1, err (k + mr)⟩] ∧
    (∀ (d : Doc) (cs ov : Nat), d ≠ [] →
      ∃ l, generate_qa_pairs_chunked oracle d cs ov = Except.ok l) := by
  obtain ⟨e1, e2, e3, e4, e5, e6⟩ :=
    retryLoop_fail_range oracle err i mr k orig c
      (fun j _ _ x => horacle j x) hc horig
  refine ⟨e4, e5, e3, e1, e2, ?_⟩
  intro d cs ov hd
  refine ⟨(chunkedRun oracle d cs ov).qa, ?_⟩
  unfold generate_qa_pairs_chunked
  rw [if_neg hd]

/-- Witness for C5 at a concrete input (`max_retries = 2`, the source's
`DEFAULT_CHUNK_RETRIES`): three calls, sleeps `[2, 4]`, one ledger entry
with the last error. -/
theorem c5_retry_budget_and_backoff_witness :
    (retryLoop (fun _ _ => Except.error [('e' : Char)]) 0 2 (("d").toList) 0 5
      (("c").toList)).k = 5 + (2 + 1) ∧
    (retryLoop (fun _ _ => Except.error [('e' : Char)]) 0 2 (("d").toList) 0 5
      (("c").toList)).sleeps =
      (List.range' 1 2).map (fun n => min (2 ^ n) MAX_RETRY_WAIT) ∧
    (retryLoop (fun _ _ => Except.error [('e' : Char)]) 0 2 (("d").toList) 0 5
      (("c").toList)).ok = false ∧
    (retryLoop (fun _ _ => Except.error [('e' : Char)]) 0 2 (("d").toList) 0 5
      (("c").toList)).records = [] ∧
    (retryLoop (fun _ _ => Except.error [('e' : Char)]) 0 2 (("d").toList) 0 5
      (("c").toList)).errors = [⟨0 + 1, 2 + 1, 2 + 1, [('e' : Char)]⟩] ∧
    (∀ (d : Doc) (cs ov : Nat), d ≠ [] →
      ∃ l, generate_qa_pairs_chunked (fun _ _ => Except.error [('e' : Char)]) d cs ov =
        Except.ok l) :=
  c5_retry_budget_and_backoff (fun _ _ => Except.error [('e' : Char)])
    (fun _ => [('e' : Char)]) 0 2 5 (("d").toList) (("c").toList)
    (fun j x => rfl) (by decide) (by decide)

/-- C6 counterexample: the claim says every non-empty text of length at
most `max_chars` yields exactly one chunk.  A whitespace-only text is a
counterexample: `" "` is non-empty and far shorter than the default
`max_chars = 8000`, yet `chunk_text` strips the single window to the
empty string, drops it, and returns no chunk at all. -/
theorem c6_whitespace_text_yields_no_chunk :
    ((" ").toList ≠ ([] : List Char)) ∧ ((" ").toList.length ≤ 8000) ∧
    chunk_text ((" ").toList) 8000 200 100 = [] := by
  decide

/-- C6 amended: chunking the empty string returns the empty chunk
sequence (not an error), and every non-empty text of length at most
`max_chars` that does not strip to the empty string yields exactly one
chunk, namely the trimmed text. -/
theorem c6_empty_and_single_chunk (t : Doc) (mc ov mk : Nat) :
    chunk_text [] mc ov mk = [] ∧
    (t ≠ [] → t.length ≤ mc → trim t ≠ [] → 0 < mk →
      chunk_text t mc ov mk = [trim t]) := by
  constructor
  · rfl
  · intro ht hlen htrim hmk
    have hlp : 0 < t.length := List.length_pos.mpr ht
    have he : chunkEndAt t mc 0 = t.length := by
      unfold chunkEndAt
      rw [Nat.zero_add, Nat.min_eq_right hlen, if_neg (lt_irrefl t.length)]
    unfold chunk_text chunkRun
    obtain ⟨n, hn⟩ : ∃ n, t.length = n + 1 := ⟨t.length - 1, by omega⟩
    rw [hn, chunkGoF, if_pos (show 0 < t.length ∧ 0 < mk from ⟨hlp, hmk⟩), he,
      if_pos (le_refl t.length)]
    have hslice : slice t 0 t.length = t := by
      unfold slice
      rw [List.take_length, List.drop_zero]
    simp [List.filterMap_cons, hslice, htrim]

/-- Witness for C6's amended theorem at a concrete input. -/
theorem c6_empty_and_single_chunk_witness :
    chunk_text (("ab").toList) 5 1 3 = [trim (("ab").toList)] :=
  (c6_empty_and_single_chunk (("ab").toList) 5 1 3).2 (by decide) (by decide)
    (by decide) (by decide)

/-- C7 counterexample: the claim says concatenating the chunk texts with
the overlapping regions removed reconstructs the input text up to its end
(no truncation happens here).  Chunks are trimmed, so the whitespace at
window boundaries is lost: `"ab cd"` with `max_chars = 3`, `overlap = 0`
chunks to `["ab", "cd"]` without hitting the chunk ceiling, and their
concatenation `"abcd"` is not the input text. -/
theorem c7_concat_not_reconstruction :
    chunk_text (("ab cd").toList) 3 0 100 = [("ab").toList, ("cd").toList] ∧
    (chunkRun (("ab cd").toList) 3 0 100).truncated = false ∧
    (chunk_text (("ab cd").toList) 3 0 100).flatten ≠ ("ab cd").toList := by
  decide

/-- C7 amended: the untrimmed windows the loop cuts do satisfy the
coverage property.  For `max_chars > 0` and `overlap < max_chars`:
every position below the loop's final cursor lies inside some window
(contiguous cover from position 0); consecutive windows have strictly
increasing starts and the next start never exceeds the previous end (the
overlap region is well defined, so concatenating window slices minus
overlaps reconstructs the covered prefix); the final cursor is the text's
end unless the run was truncated at the `max_chunks` ceiling; and the
published chunks are exactly the trimmed, non-empty slices of these
windows — so reconstruction holds up to the whitespace removed by
trimming (and trimmed-away whitespace-only windows), which is what the
counterexample shows is lost. -/
theorem c7_windows_cover (t : Doc) (mc ov mk : Nat) (hmc : 0 < mc)
    (_hov : ov < mc) :
    (∀ j, j < (chunkRun t mc ov mk).finalEnd →
      ∃ w ∈ (chunkRun t mc ov mk).windows, w.1 ≤ j ∧ j < w.2) ∧
    List.Chain' (fun w1 w2 => w1.1 < w2.1 ∧ w2.1 ≤ w1.2)
      (chunkRun t mc ov mk).windows ∧
    ((chunkRun t mc ov mk).truncated = false →
      (chunkRun t mc ov mk).finalEnd = t.length) ∧
    chunk_text t mc ov mk = (chunkRun t mc ov mk).windows.filterMap (fun w =>
      if trim (slice t w.1 w.2) = [] then none else some (trim (slice t w.1 w.2))) := by
  refine ⟨?_, chunkGoF_chain t mc ov mk hmc t.length 0 0,
    chunkGoF_finalEnd t mc ov mk t.length 0 0 (Nat.zero_le _) (by omega), rfl⟩
  intro j hj
  exact chunkGoF_cover t mc ov mk hmc t.length 0 0 (by omega) j (Nat.zero_le j) hj

/-- Witness for C7's amended theorem at a concrete input: position 3 of
`"ab cd"` is covered by a window. -/
theorem c7_windows_cover_witness :
    ∃ w ∈ (chunkRun (("ab cd").toList) 3 1 100).windows, w.1 ≤ 3 ∧ 3 < w.2 :=
  (c7_windows_cover (("ab cd").toList) 3 1 100 (by decide) (by decide)).1 3 (by decide)

/-- C8: the parser emits records in encounter order (the instrumented
parser tags every record with the line index at which it was flushed,
those indices are strictly increasing, and dropping the tags gives
exactly `_parse_qa_pairs`); every emitted record has a non-empty,
trim-fixed (hence not whitespace-only) question and answer — so a
question with no following answer line before the next question marker or
the end of input is never emitted; and the spec's dangling-question
example parses to only the completed pair. -/
theorem c8_parser_guarantees : ∀ t : Doc,
    (parseIdx t).map Prod.snd = parse_qa_pairs t ∧
    List.Pairwise (fun x y => x.1 < y.1) (parseIdx t) ∧
    (∀ r ∈ parse_qa_pairs t, trim r.question = r.question ∧ r.question ≠ [] ∧
      trim r.answer = r.answer ∧ r.answer ≠ []) ∧
    parse_qa_pairs (("Q1: a\nA1: b\nQ2: c").toList) =
      [⟨[('a' : Char)], [('b' : Char)]⟩] := by
  intro t
  refine ⟨parseLoopIdx_map _ 0 none none [] [] rfl,
    parseLoopIdx_pairwise _ 0 none none [] (by simp) List.Pairwise.nil,
    parseLoop_good _ none none [] (by simp) (by simp) (by simp),
    by decide⟩

/-- C9: the chunking loop makes strict forward progress — the window
start positions are strictly increasing along the run (each iteration
advances the cursor to `max(end - overlap, cursor + 1) > cursor`, for
ANY overlap value, which is why the loop terminates and why the embedding
can run on fuel `t.length`) — and no chunk in the returned sequence is
empty or whitespace-only: every chunk is trim-fixed and non-empty. -/
theorem c9_progress_and_no_empty (t : Doc) (mc ov mk : Nat) (hmc : 0 < mc) :
    List.Chain' (fun w1 w2 => w1.1 < w2.1) (chunkRun t mc ov mk).windows ∧
    ∀ c ∈ chunk_text t mc ov mk, trim c = c ∧ c ≠ [] := by
  constructor
  · exact List.Chain'.imp (fun a b h => h.1) (chunkGoF_chain t mc ov mk hmc t.length 0 0)
  · intro c hc
    exact ⟨(chunk_text_mem t mc ov mk c hc).1, (chunk_text_mem t mc ov mk c hc).2.1⟩

/-- Witness for C9 at a concrete input. -/
theorem c9_progress_and_no_empty_witness :
    List.Chain' (fun w1 w2 => w1.1 < w2.1)
      (chunkRun (("aa.bb").toList) 3 0 100).windows ∧
    ∀ c ∈ chunk_text (("aa.bb").toList) 3 0 100, trim c = c ∧ c ≠ [] :=
  c9_progress_and_no_empty (("aa.bb").toList) 3 0 100 (by decide)

/-- C10: every chunk returned by `chunk_text` has length at most
`max_chars`: each window spans at most `max_chars` characters (snapping
to a sentence boundary can only pull the end backward, never forward),
and trimming only shortens the slice. -/
theorem c10_chunk_length_le_max (t : Doc) (mc ov mk : Nat) (_hmc : 0 < mc) :
    ∀ c ∈ chunk_text t mc ov mk, c.length ≤ mc := by
  intro c hc
  obtain ⟨-, -, w, hw, hcw⟩ := chunk_text_mem t mc ov mk c hc
  have hend := (chunkGoF_mem_end t mc ov mk t.length 0 0 w hw).1
  have h1 : (trim (slice t w.1 w.2)).length ≤ (slice t w.1 w.2).length :=
    trim_length_le _
  have h2 : (slice t w.1 w.2).length ≤ w.2 - w.1 := slice_length_le t w.1 w.2
  have h3 : chunkEndAt t mc w.1 ≤ w.1 + mc := chunkEndAt_le t mc w.1
  rw [hcw]
  omega

/-- Witness for C10 at a concrete input. -/
theorem c10_chunk_length_le_max_witness : (("aa.").toList).length ≤ 3 :=
  c10_chunk_length_le_max (("aa.bb").toList) 3 0 100 (by decide)
    (("aa.").toList) (by decide)

end RagQA
